import Mathlib

/-!
Verification development for the Theory-of-Change SVG visualizer
(`src/js/svgVisualizer.js` and its data-model/storage collaborators).

The JavaScript code is shallowly embedded: JS strings become Lean `String`,
JS arrays become `List`, JS numbers used in layout arithmetic become `ℚ`
(the layout computations are exact in the tested range), JS `Map` with
insertion-order iteration becomes an association list with unique keys,
and property accesses that would throw a `TypeError` on missing fields
become `Except Unit` computations on records with `Option` fields.
-/

/-! ## Data model (total, well-formed snapshots)

Mirrors the shapes produced by `TocDataModel` (`src/unnamed/part_000`):
`impact : {id, statement}`, `outcomes : [{id, statement, indicators, outputs}]`,
`outputs : [{id, statement, indicators}]`, `indicators : [{id, description}]`. -/

structure Indicator where
  id : String
  description : String
deriving DecidableEq

structure Output where
  id : String
  statement : String
  indicators : List Indicator
deriving DecidableEq

structure Outcome where
  id : String
  statement : String
  indicators : List Indicator
  outputs : List Output
deriving DecidableEq

structure Snapshot where
  impactStatement : String
  outcomes : List Outcome
deriving DecidableEq

/-! ## Output Deduplicator (svgVisualizer.js lines 31-47)

`const key = output.statement.trim().toLowerCase();` and the `outputsMap`
registration loop. A JS `Map` iterated with `Array.from(map.values())`
yields entries in insertion order; we model it as an association list with
unique keys, appended on first registration and updated in place after. -/

/-- JS `String.prototype.trim()`: drop leading and trailing whitespace. -/
def jsTrim (s : String) : String :=
  String.mk (((s.data.dropWhile Char.isWhitespace).reverse.dropWhile Char.isWhitespace).reverse)

/-- JS `String.prototype.toLowerCase()` on the ASCII range. -/
def jsToLower (s : String) : String :=
  String.mk (s.data.map Char.toLower)

def keyOf (s : String) : String := jsToLower (jsTrim s)

/-- One entry of `outputsMap`: `{output, outcomeIds[]}` keyed by the
normalized statement (line 31). -/
structure UEntry where
  key : String
  output : Output
  outcomeIds : List String
deriving DecidableEq

/-- In-place update of the matching entry:
`outputsMap.get(key).outcomeIds.push(outcome.id)` (line 37). -/
def updEntry (k : String) (oid : String) (e : UEntry) : UEntry :=
  if e.key = k then { e with outcomeIds := e.outcomeIds ++ [oid] } else e

/-- Processing of a single `output` inside the nested `forEach` (lines 34-44):
if the key is registered, push the outcome id; else register a new entry. -/
def addOcc (m : List UEntry) (oid : String) (out : Output) : List UEntry :=
  let k := keyOf out.statement
  if m.any (fun e => e.key = k) then
    m.map (updEntry k oid)
  else
    m ++ [{ key := k, output := out, outcomeIds := [oid] }]

/-- The full double `forEach` over `data.outcomes` / `outcome.outputs`
(lines 33-45); `uniqueOutputs = Array.from(outputsMap.values())` (line 47). -/
def dedup (os : List Outcome) : List UEntry :=
  os.foldl (fun m o => o.outputs.foldl (fun m2 out => addOcc m2 o.id out) m) []

/-- The traversal-ordered list of (owning outcome id, output) occurrences,
exactly the order the nested `forEach` visits them in. -/
def occList (os : List Outcome) : List (String × Output) :=
  os.flatMap fun o => o.outputs.map fun out => (o.id, out)

/-- Folding `addOcc` over an explicit occurrence list. -/
def foldOcc (m : List UEntry) (l : List (String × Output)) : List UEntry :=
  l.foldl (fun m2 p => addOcc m2 p.1 p.2) m

/-- Key of an occurrence. -/
def occKey (p : String × Output) : String := keyOf p.2.statement

/-- Extend one registered entry with the ids of all matching occurrences of a list. -/
def extendEntry (l : List (String × Output)) (e : UEntry) : UEntry :=
  { e with outcomeIds := e.outcomeIds ++ (l.filter fun p => occKey p = e.key).map Prod.fst }

/-- Extend every registered entry with matching occurrences. -/
def absorb (m : List UEntry) (l : List (String × Output)) : List UEntry :=
  m.map (extendEntry l)

/-- The keys of the registered entries, in registration order. -/
def keys (m : List UEntry) : List String := m.map (·.key)

/-- Specification-side description of the deduplicator, written from the
spec's words (section 4.1): one entry per distinct normalized key in
first-seen order, the representative output taken from the first
occurrence, and the owner ids of all occurrences of that key listed in
traversal order. This is the reference the source-translated `dedup` is
compared against. -/
def groupOccs : List (String × Output) → List UEntry
  | [] => []
  | p :: rest =>
    { key := occKey p, output := p.2,
      outcomeIds := p.1 :: ((rest.filter fun q => occKey q = occKey p).map Prod.fst) } ::
    groupOccs (rest.filter fun q => ¬ occKey q = occKey p)
termination_by l => l.length
decreasing_by
  simp only [List.length_cons]
  exact Nat.lt_succ_of_le (List.length_filter_le _ _)

/-! ## Layer Layout Engine (svgVisualizer.js lines 12-28, 49-55, 92-112, 149-152) -/

/-- `config.width` (line 14). -/
def configWidth : ℚ := 1200

/-- `config.levelHeight` (line 15). -/
def levelHeight : ℚ := 180

/-- `config.itemWidth` (line 16). -/
def itemWidth : ℚ := 200

/-- `config.itemHeight` (line 17). -/
def itemHeight : ℚ := 80

/-- `config.horizontalGap` (line 18). -/
def horizontalGap : ℚ := 40

/-- `config.padding` (line 20). -/
def configPadding : ℚ := 20

/-- `maxItemsPerRow = Math.max(data.outcomes.length, uniqueOutputs.length, 1)`
(line 50). -/
def maxItemsPerRow (n m : ℕ) : ℕ := max (max n m) 1

/-- `totalWidth = Math.max(config.width, maxItemsPerRow * (config.itemWidth +
config.horizontalGap) + config.padding * 2)` (lines 51-54). -/
def totalWidth (n m : ℕ) : ℚ :=
  max configWidth ((maxItemsPerRow n m : ℚ) * (itemWidth + horizontalGap) + configPadding * 2)

/-- The claim's canvas-width formula, written from the spec's words
(`max(W, max(n, m, 1) * (boxW + gap) + 2P)` with `W=1200`, `boxW=200`,
`gap=40`, `P=20`), to be compared with the source-translated `totalWidth`. -/
def specCanvasWidth (n m : ℕ) : ℚ :=
  max 1200 ((max (max n m) 1 : ℕ) * (200 + 40) + 2 * 20)

/-- `totalHeight = config.levelHeight * 3 + config.padding * 2` (line 55). -/
def totalHeight : ℚ := levelHeight * 3 + configPadding * 2

/-- Rank spacing: `totalWidth / (count + 1)` (lines 109 and 149). -/
def rowSpacing (tw : ℚ) (k : ℕ) : ℚ := tw / ((k : ℚ) + 1)

/-- Left edge of the i-th (0-indexed) box of a rank of `k` items:
`spacing * (index + 1) - config.itemWidth / 2` (lines 112 and 152). -/
def slotX (tw : ℚ) (k i : ℕ) : ℚ := rowSpacing tw k * ((i : ℚ) + 1) - itemWidth / 2

/-! ## Text Fitter (svgVisualizer.js lines 232-274 and 305-308, inside `createNode`) -/

/-- JS `text.substring(0, n)`: the first `n` characters. -/
def jsSubstring (text : String) (n : ℕ) : String := String.mk (text.data.take n)

/-- `const truncatedText = text.length > 60 ? text.substring(0, 57) + '...' : text;`
(line 233). -/
def truncatedText (text : String) : String :=
  if text.length > 60 then jsSubstring text 57 ++ "..." else text

/-- `currentLine += (currentLine ? ' ' : '') + word;` (line 254). -/
def addWord (cl w : String) : String :=
  cl ++ (if cl = "" then "" else " ") ++ w

/-- JS `String.prototype.split(' ')` on the character list: empty segments
between, before and after separators are preserved, and splitting the empty
string yields `[""]`. -/
def splitChars : List Char → List (List Char)
  | [] => [[]]
  | c :: rest =>
    if c = ' ' then [] :: splitChars rest
    else
      match splitChars rest with
      | [] => [[c]]
      | w :: ws => (c :: w) :: ws

/-- `truncatedText.split(' ')` (line 247). -/
def splitWords (s : String) : List String := (splitChars s.data).map String.mk

/-- One step of the greedy wrap loop (lines 252-259): the state is
`(lines, currentLine)`; the width test is
`(currentLine + word).length <= maxCharsPerLine` with `maxCharsPerLine = 30`. -/
def wrapStep (st : List String × String) (w : String) : List String × String :=
  if (st.2 ++ w).length ≤ 30 then
    (st.1, addWord st.2 w)
  else
    ((if st.2 = "" then st.1 else st.1 ++ [st.2]), w)

/-- The whole wrap loop over `truncatedText.split(' ')` plus the trailing
`if (currentLine) lines.push(currentLine);` (lines 247-260). -/
def wrapLines (text : String) : List String :=
  let st := (splitWords text).foldl wrapStep ([], "")
  if st.2 = "" then st.1 else st.1 ++ [st.2]

/-- Join a list of words the way the wrap loop joins them into one line. -/
def joinWords (ws : List String) : String := ws.foldl addWord ""

/-- Result of the text fitter for one node: `displayLines = lines.slice(0, maxLines)`
with `maxLines = 2` (lines 262-263), and the full untruncated text kept for the
accessible `<title>` tooltip (`titleEl.textContent = text;`, line 307). -/
structure FitResult where
  displayLines : List String
  fullText : String
deriving DecidableEq

/-- The text fitter of `createNode`: char-level truncation, greedy wrap,
line-level cut at 2 lines, full text preserved for the tooltip. -/
def fit (text : String) : FitResult :=
  { displayLines := (wrapLines (truncatedText text)).take 2
    fullText := text }

/-- The words the wrap loop operates on: `truncatedText.split(' ')` (line 247). -/
def wordsOf (text : String) : List String := splitWords (truncatedText text)

/-- A display line is well-formed for a word list when it is the wrap-loop
join of a nonempty selection of those words, and it is either literally one
of the words (a single word is placed alone, however long) or has length at
most 31 (the greedy width test ignores the single joining space it is about
to insert, so a multi-word line can exceed 30 by exactly one). -/
def LineGood (words : List String) (line : String) : Prop :=
  (∃ ws, ws ≠ [] ∧ (∀ w ∈ ws, w ∈ words) ∧ line = joinWords ws) ∧
  (line ∈ words ∨ line.length ≤ 31)

/-! ## Indicator badge (svgVisualizer.js lines 276-303, inside `createNode`) -/

/-- The accessible label of the indicator-count badge: the badge subtree is
emitted only under `if (indicatorCount > 0)` (line 277), and its tooltip is
`` `${indicatorCount} indicator${indicatorCount > 1 ? 's' : ''}` `` (line 301). -/
def indicatorBadgeLabel (indicatorCount : ℕ) : Option String :=
  if indicatorCount > 0 then
    some (toString indicatorCount ++ " indicator" ++ (if indicatorCount > 1 then "s" else ""))
  else
    none

/-! ## Scene assembly and z-order (svgVisualizer.js lines 57-199)

The SVG element's child list is modeled as a `List Elem`; `title`, `desc`
and `defs` (lines 66-89) are metadata children, each `createNode` group is a
node child, each `createConnection` path is a connector child. The code
appends node groups with `appendChild` and back-inserts connectors with
`svg.insertBefore(connection, impactNode.group)` (line 143) and
`svg.insertBefore(connection, svg.firstChild.nextSibling)` (line 194). -/

inductive ElemKind where
  | metaElem
  | connectorElem
  | nodeElem
deriving DecidableEq

structure Elem where
  kind : ElemKind
  isImpact : Bool
deriving DecidableEq

/-- The `title`, `desc` and `defs` children (lines 66-89). -/
def metaE : Elem := ⟨ElemKind.metaElem, false⟩

/-- The Impact node group (line 104). -/
def impactE : Elem := ⟨ElemKind.nodeElem, true⟩

/-- An Outcome or Output node group (lines 126 and 172). -/
def nodeE : Elem := ⟨ElemKind.nodeElem, false⟩

/-- A connector path (lines 143 and 194). -/
def connE : Elem := ⟨ElemKind.connectorElem, false⟩

/-- `svg.insertBefore(connection, impactNode.group)` (line 143): insert right
before the unique impact group. -/
def insertBeforeImpact : List Elem → Elem → List Elem
  | [], e => [e]
  | c :: rest, e => if c.isImpact then e :: c :: rest else c :: insertBeforeImpact rest e

/-- `svg.insertBefore(connection, svg.firstChild.nextSibling)` (line 194):
insert right after the first child. -/
def insertAt1 : List Elem → Elem → List Elem
  | [], e => [e]
  | c :: rest, e => c :: e :: rest

/-- Children after the Impact layer and the Outcomes layer (lines 57-144):
`[title, desc, defs]`, then the appended impact group, then per outcome an
appended group plus a connector inserted before the impact group. -/
def childrenL2 (oids : List String) : List Elem :=
  oids.foldl (fun acc _ => insertBeforeImpact (acc ++ [nodeE]) connE)
    [metaE, metaE, metaE, impactE]

/-- Children after the Outputs layer (lines 146-197): per unique output an
appended group, then per recorded outcome id (when
`outcomeNodes.find(n => n.id === outcomeId)` succeeds) a connector inserted
at position 1. -/
def childrenOf (oids : List String) (entryIds : List (List String)) : List Elem :=
  entryIds.foldl
    (fun acc ids =>
      ids.foldl (fun a oid => if oids.contains oid then insertAt1 a connE else a)
        (acc ++ [nodeE]))
    (childrenL2 oids)

/-- Derived per-unique-output scene data (lines 151-196): the recorded source
outcome ids, the `isShared` flag (`outputData.outcomeIds.length > 1`, line
158), and the number of connectors created into this node by the loop of
lines 182-196. -/
structure OutNode where
  outcomeIds : List String
  isShared : Bool
  connCount : ℕ
deriving DecidableEq

def mkOutNode (oids : List String) (ids : List String) : OutNode :=
  { outcomeIds := ids
    isShared := decide (1 < ids.length)
    connCount := (ids.filter fun oid => oids.contains oid).length }

/-- The render-target-agnostic scene assembled by `generateSVGVisualization`:
canvas width, impact anchor x (`impactX = totalWidth / 2`, line 93), the
impact box rectangle as passed to `createNode` (lines 94-103: x =
`impactX - config.itemWidth / 2`, y = `config.padding`, width =
`config.itemWidth * 1.5`, height = `config.itemHeight`), the ordered child
list, and the per-unique-output data. -/
structure Scene where
  totalWidth : ℚ
  impactX : ℚ
  impactRect : ℚ × ℚ × ℚ × ℚ
  children : List Elem
  outputNodes : List OutNode
deriving DecidableEq

/-- The full pipeline on a well-formed snapshot. -/
def generateScene (snap : Snapshot) : Scene :=
  let entries := dedup snap.outcomes
  let oids := snap.outcomes.map (·.id)
  let tw := totalWidth snap.outcomes.length entries.length
  { totalWidth := tw
    impactX := tw / 2
    impactRect := (tw / 2 - itemWidth / 2, configPadding, itemWidth * 1.5, itemHeight)
    children := childrenOf oids (entries.map (·.outcomeIds))
    outputNodes := entries.map (fun e => mkOutNode oids e.outcomeIds) }

/-! ## Raw snapshots and the throwing pipeline (error handling)

`generateSVGVisualization` performs no up-front validation; a missing field
surfaces as a thrown `TypeError` at the point of first bad access
(`data.outcomes.forEach` at line 33, `output.statement.trim()` at line 35,
`data.impact.statement` used as `text.length` at lines 99/233,
`outcome.indicators.length` at line 114, `output.indicators.length` at
line 155). We model possibly-missing fields as `Option` and each such
access as an `Except Unit` step, sequenced in source order. The storage
collaborator's `isValidData` (src/unnamed/part_002 lines 103-124) is the
excluded validator the spec refers to; the core itself never calls it. -/

structure RawOutput where
  id : String
  statement : Option String
  indicators : Option (List Indicator)
deriving DecidableEq

structure RawOutcome where
  id : String
  statement : Option String
  indicators : Option (List Indicator)
  outputs : Option (List RawOutput)
deriving DecidableEq

structure RawData where
  impactStatement : Option String
  outcomes : Option (List RawOutcome)
deriving DecidableEq

/-- A JS property access whose absence makes the subsequent use throw. -/
def getF {α : Type} : Option α → Except Unit α
  | some a => Except.ok a
  | none => Except.error ()

/-- Dedup entry over raw outputs. -/
structure RUEntry where
  key : String
  output : RawOutput
  outcomeIds : List String
deriving DecidableEq

/-- Raw counterpart of `addOcc`: `output.statement.trim().toLowerCase()`
throws when `statement` is missing (line 35). -/
def addOccE (m : List RUEntry) (oid : String) (out : RawOutput) : Except Unit (List RUEntry) :=
  match out.statement with
  | none => Except.error ()
  | some stmt =>
    let k := keyOf stmt
    Except.ok
      (if m.any (fun e => e.key = k) then
        m.map (fun e => if e.key = k then { e with outcomeIds := e.outcomeIds ++ [oid] } else e)
      else
        m ++ [{ key := k, output := out, outcomeIds := [oid] }])

/-- Raw deduplication loop (lines 33-45): `outcome.outputs.forEach` throws
when `outputs` is missing. -/
def dedupE (os : List RawOutcome) : Except Unit (List RUEntry) :=
  os.foldlM
    (fun m o =>
      match o.outputs with
      | none => Except.error ()
      | some outs => outs.foldlM (fun m2 out => addOccE m2 o.id out) m)
    []

/-- Field accesses of the Outcomes layer (lines 111-144):
`outcome.indicators.length` (line 114) then `createNode(..., outcome.statement, ...)`
whose body reads `text.length` (line 233). -/
def layer2E (os : List RawOutcome) : Except Unit Unit :=
  os.foldlM
    (fun _ o =>
      match o.indicators with
      | none => Except.error ()
      | some _ =>
        match o.statement with
        | none => Except.error ()
        | some _ => Except.ok ())
    ()

/-- Field accesses of the Outputs layer (lines 151-197):
`output.indicators.length` (line 155) then `createNode(..., output.statement, ...)`
(lines 161-171) on the representative output. -/
def layer3E (entries : List RUEntry) : Except Unit Unit :=
  entries.foldlM
    (fun _ e =>
      match e.output.indicators with
      | none => Except.error ()
      | some _ =>
        match e.output.statement with
        | none => Except.error ()
        | some _ => Except.ok ())
    ()

/-- Scene data from raw components. -/
def rawScene (os : List RawOutcome) (entries : List RUEntry) : Scene :=
  let oids := os.map (·.id)
  let tw := totalWidth os.length entries.length
  { totalWidth := tw
    impactX := tw / 2
    impactRect := (tw / 2 - itemWidth / 2, configPadding, itemWidth * 1.5, itemHeight)
    children := childrenOf oids (entries.map (·.outcomeIds))
    outputNodes := entries.map (fun e => mkOutNode oids e.outcomeIds) }

/-- The throwing pipeline, sequenced exactly as `generateSVGVisualization`
executes: traverse `data.outcomes` (line 33, deduplication), compute
dimensions (lines 49-55), build the Impact node (lines 92-104, first use of
`data.impact.statement`), build the Outcomes layer (lines 106-144), build
the Outputs layer (lines 146-197). -/
def generateSVGVisualization (data : RawData) : Except Unit Scene :=
  match data.outcomes with
  | none => Except.error ()
  | some os =>
    match dedupE os with
    | Except.error e => Except.error e
    | Except.ok entries =>
      match data.impactStatement with
      | none => Except.error ()
      | some _ =>
        match layer2E os with
        | Except.error e => Except.error e
        | Except.ok _ =>
          match layer3E entries with
          | Except.error e => Except.error e
          | Except.ok _ => Except.ok (rawScene os entries)

/-- Erase a well-formed snapshot to a raw one (every field present). -/
def rawOfOutput (out : Output) : RawOutput :=
  ⟨out.id, some out.statement, some out.indicators⟩

def rawOfOutcome (o : Outcome) : RawOutcome :=
  ⟨o.id, some o.statement, some o.indicators, some (o.outputs.map rawOfOutput)⟩

def rawOfSnapshot (snap : Snapshot) : RawData :=
  ⟨some snap.impactStatement, some (snap.outcomes.map rawOfOutcome)⟩

/-! ## Deduplicator characterization lemmas -/

theorem any_key_eq (m : List UEntry) (k : String) :
    (m.any fun e => e.key = k) = true ↔ k ∈ keys m := by
  simp [keys, List.any_eq_true]

theorem addOcc_of_mem {m : List UEntry} {oid : String} {out : Output}
    (h : keyOf out.statement ∈ keys m) :
    addOcc m oid out = m.map (updEntry (keyOf out.statement) oid) := by
  simp only [addOcc, if_pos ((any_key_eq m (keyOf out.statement)).mpr h)]

theorem addOcc_of_not_mem {m : List UEntry} {oid : String} {out : Output}
    (h : ¬ keyOf out.statement ∈ keys m) :
    addOcc m oid out = m ++ [{ key := keyOf out.statement, output := out, outcomeIds := [oid] }] := by
  have : ¬ ((m.any fun e => e.key = keyOf out.statement) = true) := fun hc =>
    h ((any_key_eq m (keyOf out.statement)).mp hc)
  simp only [addOcc, if_neg this]

theorem key_updEntry (k oid : String) (e : UEntry) : (updEntry k oid e).key = e.key := by
  unfold updEntry; split <;> rfl

theorem keys_map_updEntry (m : List UEntry) (k oid : String) :
    keys (m.map (updEntry k oid)) = keys m := by
  simp only [keys, List.map_map]
  exact List.map_congr_left fun e _ => key_updEntry k oid e

theorem keys_append_one (m : List UEntry) (ne : UEntry) :
    keys (m ++ [ne]) = keys m ++ [ne.key] := by
  simp [keys]

theorem extendEntry_nil (e : UEntry) : extendEntry [] e = e := by
  cases e; simp [extendEntry]

theorem absorb_nil (m : List UEntry) : absorb m [] = m := by
  show m.map (extendEntry []) = m
  rw [List.map_congr_left fun e _ => extendEntry_nil e]
  simp

theorem foldOcc_nil (m : List UEntry) : foldOcc m [] = m := rfl

theorem foldOcc_cons (m : List UEntry) (p : String × Output) (l : List (String × Output)) :
    foldOcc m (p :: l) = foldOcc (addOcc m p.1 p.2) l := rfl

theorem extendEntry_updEntry (p : String × Output) (rest : List (String × Output)) (e : UEntry) :
    extendEntry rest (updEntry (occKey p) p.1 e) = extendEntry (p :: rest) e := by
  obtain ⟨k0, out0, ids0⟩ := e
  by_cases h : k0 = occKey p
  · subst h
    simp [updEntry, extendEntry, List.filter_cons, List.append_assoc]
  · have h2 : ¬ occKey p = k0 := fun hc => h hc.symm
    simp [updEntry, extendEntry, List.filter_cons, h, h2]

theorem absorb_cons_not_mem {m : List UEntry} {p : String × Output}
    (h : ∀ e ∈ m, ¬ occKey p = e.key) (rest : List (String × Output)) :
    absorb m (p :: rest) = absorb m rest := by
  refine List.map_congr_left fun e he => ?_
  unfold extendEntry
  simp [List.filter_cons, h e he]

theorem absorb_append_one (m : List UEntry) (ne : UEntry) (rest : List (String × Output)) :
    absorb (m ++ [ne]) rest = absorb m rest ++ [extendEntry rest ne] := by
  simp [absorb]

theorem foldOcc_eq (l : List (String × Output)) : ∀ (m : List UEntry), (keys m).Nodup →
    foldOcc m l = absorb m l ++ groupOccs (l.filter fun p => ¬ occKey p ∈ keys m) := by
  induction l with
  | nil =>
    intro m _
    simp [foldOcc_nil, absorb_nil, groupOccs]
  | cons p rest ih =>
    intro m hm
    rw [foldOcc_cons]
    by_cases hin : occKey p ∈ keys m
    · have hadd : addOcc m p.1 p.2 = m.map (updEntry (occKey p) p.1) := addOcc_of_mem hin
      rw [hadd]
      have hkeys : keys (m.map (updEntry (occKey p) p.1)) = keys m :=
        keys_map_updEntry m (occKey p) p.1
      have ih2 := ih (m.map (updEntry (occKey p) p.1)) (by rw [hkeys]; exact hm)
      rw [ih2, hkeys]
      have habs : absorb (m.map (updEntry (occKey p) p.1)) rest = absorb m (p :: rest) := by
        show (m.map (updEntry (occKey p) p.1)).map (extendEntry rest)
            = m.map (extendEntry (p :: rest))
        rw [List.map_map]
        exact List.map_congr_left fun e _ => extendEntry_updEntry p rest e
      rw [habs]
      congr 2
      rw [List.filter_cons]
      simp [hin]
    · have hadd : addOcc m p.1 p.2 = m ++ [⟨keyOf p.2.statement, p.2, [p.1]⟩] :=
        addOcc_of_not_mem hin
      rw [hadd]
      have hkeys2 : keys (m ++ [(⟨keyOf p.2.statement, p.2, [p.1]⟩ : UEntry)])
          = keys m ++ [occKey p] :=
        keys_append_one m _
      have hnodup2 : (keys m ++ [occKey p]).Nodup := by
        rw [List.nodup_append]
        exact ⟨hm, List.nodup_singleton _, by simpa using hin⟩
      have ih2 := ih (m ++ [⟨keyOf p.2.statement, p.2, [p.1]⟩]) (by rw [hkeys2]; exact hnodup2)
      rw [ih2, hkeys2, absorb_append_one]
      have hfilter1 : (p :: rest).filter (fun q => ¬ occKey q ∈ keys m)
          = p :: rest.filter (fun q => ¬ occKey q ∈ keys m) := by
        rw [List.filter_cons]
        simp [hin]
      rw [hfilter1]
      have hunfold : groupOccs (p :: rest.filter (fun q => ¬ occKey q ∈ keys m))
          = (⟨occKey p, p.2,
              p.1 :: (((rest.filter (fun q => ¬ occKey q ∈ keys m)).filter
                (fun q => occKey q = occKey p)).map Prod.fst)⟩ : UEntry) ::
            groupOccs ((rest.filter (fun q => ¬ occKey q ∈ keys m)).filter
                (fun q => ¬ occKey q = occKey p)) := by
        rw [groupOccs]
      rw [hunfold]
      have hC : (rest.filter (fun q => ¬ occKey q ∈ keys m)).filter
          (fun q => occKey q = occKey p) = rest.filter (fun q => occKey q = occKey p) := by
        rw [List.filter_filter]
        refine List.filter_congr fun a _ => ?_
        by_cases ha : occKey a = occKey p
        · simp [ha, hin]
        · simp [ha]
      have hD : (rest.filter (fun q => ¬ occKey q ∈ keys m)).filter
          (fun q => ¬ occKey q = occKey p)
          = rest.filter (fun q => ¬ occKey q ∈ keys m ++ [occKey p]) := by
        rw [List.filter_filter]
        refine List.filter_congr fun a _ => ?_
        by_cases ha : occKey a = occKey p <;> by_cases hb : occKey a ∈ keys m <;>
          simp [ha, hb]
      rw [hC, hD]
      have hE : absorb m (p :: rest) = absorb m rest := by
        refine absorb_cons_not_mem (fun e he hc => ?_) rest
        refine hin ?_
        rw [hc]
        simp only [keys, List.mem_map]
        exact ⟨e, he, rfl⟩
      rw [hE]
      have hG : extendEntry rest (⟨keyOf p.2.statement, p.2, [p.1]⟩ : UEntry)
          = ⟨occKey p, p.2,
              p.1 :: ((rest.filter (fun q => occKey q = occKey p)).map Prod.fst)⟩ := by
        simp [extendEntry, occKey]
      rw [hG]
      simp

theorem dedup_eq_foldOcc (os : List Outcome) : dedup os = foldOcc [] (occList os) := by
  suffices h : ∀ (m : List UEntry),
      os.foldl (fun m o => o.outputs.foldl (fun m2 out => addOcc m2 o.id out) m) m
        = foldOcc m (occList os) by
    exact h []
  induction os with
  | nil => intro m; rfl
  | cons o os ih =>
    intro m
    simp only [List.foldl_cons, occList, List.flatMap_cons]
    rw [show foldOcc m (o.outputs.map (fun out => (o.id, out)) ++ os.flatMap
        (fun o2 => o2.outputs.map fun out => (o2.id, out)))
      = foldOcc (foldOcc m (o.outputs.map fun out => (o.id, out)))
          (os.flatMap fun o2 => o2.outputs.map fun out => (o2.id, out)) from
      List.foldl_append ..]
    rw [show foldOcc m (o.outputs.map fun out => (o.id, out))
        = o.outputs.foldl (fun m2 out => addOcc m2 o.id out) m from by
      unfold foldOcc
      rw [List.foldl_map]]
    exact ih _

theorem dedup_eq_groupOccs_aux (os : List Outcome) : dedup os = groupOccs (occList os) := by
  rw [dedup_eq_foldOcc, foldOcc_eq (occList os) [] List.nodup_nil]
  have : (occList os).filter (fun p => ¬ occKey p ∈ keys []) = occList os := by
    refine List.filter_congr (fun a _ => by simp [keys]) |>.trans (List.filter_true _)
  rw [this]
  simp [absorb]

theorem keys_cons (e : UEntry) (m : List UEntry) : keys (e :: m) = e.key :: keys m := rfl

theorem mem_key_groupOccs : ∀ (l : List (String × Output)) (e : UEntry),
    e ∈ groupOccs l → e.key ∈ l.map occKey := by
  intro l
  induction l using groupOccs.induct with
  | case1 => intro e he; simp [groupOccs] at he
  | case2 p rest ih =>
    intro e he
    rw [groupOccs] at he
    rcases List.mem_cons.mp he with h | h
    · subst h; simp
    · have h2 := ih e h
      simp only [List.mem_map] at h2 ⊢
      obtain ⟨q, hq, hqe⟩ := h2
      exact ⟨q, List.mem_cons_of_mem p (List.mem_of_mem_filter hq), hqe⟩

theorem keys_groupOccs_nodup : ∀ (l : List (String × Output)), (keys (groupOccs l)).Nodup := by
  intro l
  induction l using groupOccs.induct with
  | case1 => simp [groupOccs, keys]
  | case2 p rest ih =>
    rw [groupOccs, keys_cons, List.nodup_cons]
    refine ⟨fun hc => ?_, ih⟩
    simp only [keys, List.mem_map] at hc
    obtain ⟨e, he, hek⟩ := hc
    have h2 := mem_key_groupOccs _ e he
    rw [hek] at h2
    simp only [List.mem_map] at h2
    obtain ⟨q, hq, hqk⟩ := h2
    have h3 := (List.mem_filter.mp hq).2
    simp only [decide_eq_true_eq] at h3
    exact h3 hqk

/-- C1: the Output Deduplicator produces exactly one `UniqueOutputNode` per
distinct trimmed/lowercased statement key, in first-seen order, with
`representativeOutput` taken from the first occurrence (this part of the
claim holds: `dedup` coincides with the spec-side grouping `groupOccs`, and
the produced keys are distinct). AMENDED from the original claim:
`sourceOutcomeIds` records the owning Outcome's id once per Output
occurrence of that key, in traversal order — an Outcome that lists the same
statement twice contributes its id twice, because line 37 of
svgVisualizer.js pushes `outcome.id` unconditionally, with no
within-Outcome deduplication. -/
theorem c1_deduplicator (os : List Outcome) :
    dedup os = groupOccs (occList os) ∧ (keys (dedup os)).Nodup := by
  refine ⟨dedup_eq_groupOccs_aux os, ?_⟩
  rw [dedup_eq_groupOccs_aux os]
  exact keys_groupOccs_nodup (occList os)

/-- C1 counterexample to the claim as stated: a single Outcome `"A"` listing
the statement `"x"` twice yields `sourceOutcomeIds = ["A", "A"]` — the
contributing Outcome's id appears twice, not "exactly once". -/
theorem c1_counterexample :
    (dedup [⟨"A", "sA", [], [⟨"o1", "x", []⟩, ⟨"o2", "x", []⟩]⟩]).map (fun e => e.outcomeIds)
        = [["A", "A"]] ∧
      ¬ (["A", "A"] : List String).Nodup := by
  constructor
  · decide
  · decide

theorem mem_ids_groupOccs : ∀ (l : List (String × Output)) (e : UEntry), e ∈ groupOccs l →
    ∀ oid ∈ e.outcomeIds, oid ∈ l.map Prod.fst := by
  intro l
  induction l using groupOccs.induct with
  | case1 => intro e he; simp [groupOccs] at he
  | case2 p rest ih =>
    intro e he oid hoid
    rw [groupOccs] at he
    rcases List.mem_cons.mp he with h | h
    · subst h
      rcases List.mem_cons.mp hoid with h1 | h1
      · subst h1; simp
      · simp only [List.mem_map] at h1
        obtain ⟨q, hq, hqe⟩ := h1
        simp only [List.map_cons, List.mem_cons, List.mem_map]
        exact Or.inr ⟨q, List.mem_of_mem_filter hq, hqe⟩
    · have h2 := ih e h oid hoid
      simp only [List.mem_map] at h2 ⊢
      obtain ⟨q, hq, hqe⟩ := h2
      exact ⟨q, List.mem_cons_of_mem p (List.mem_of_mem_filter hq), hqe⟩

theorem occList_fst_mem {os : List Outcome} {oid : String}
    (h : oid ∈ (occList os).map Prod.fst) : oid ∈ os.map (·.id) := by
  rw [List.mem_map] at h
  obtain ⟨p, hp, rfl⟩ := h
  rw [occList, List.mem_flatMap] at hp
  obtain ⟨o, ho, hpo⟩ := hp
  rw [List.mem_map] at hpo
  obtain ⟨out, hout, rfl⟩ := hpo
  simp only [List.mem_map]
  exact ⟨o, ho, rfl⟩

theorem connCount_eq_length {os : List Outcome} {e : UEntry} (he : e ∈ dedup os) :
    (e.outcomeIds.filter fun oid => (os.map (·.id)).contains oid).length
      = e.outcomeIds.length := by
  rw [List.filter_eq_self.mpr]
  intro a ha
  have h1 : a ∈ (occList os).map Prod.fst := by
    rw [dedup_eq_groupOccs_aux] at he
    exact mem_ids_groupOccs (occList os) e he a ha
  simpa [List.contains] using occList_fst_mem h1

/-- C2 (amended): for every output node in the assembled scene, `isShared`
is true iff `sourceOutcomeIds.length > 1`, and the number of connectors
created into that node (lines 182-196) equals `sourceOutcomeIds.length`,
i.e. one connector per recorded contribution — an Outcome that lists the
same statement twice yields two connectors, so the count can exceed the
number of distinct contributing Outcomes. In the concrete scenario of two
Outcomes both owning "Shared Thing" and one additionally owning "Only A",
the scene contains exactly 3 Outcome-to-Output connectors and the shared
node is marked `isShared`. -/
theorem c2_sharing (snap : Snapshot) (nd : OutNode)
    (hnd : nd ∈ (generateScene snap).outputNodes) :
    ((nd.isShared = true ↔ 1 < nd.outcomeIds.length) ∧
      nd.connCount = nd.outcomeIds.length) ∧
    ((generateScene ⟨"X", [⟨"A", "a", [], [⟨"oa1", "Shared Thing", []⟩,
          ⟨"oa2", "Only A", []⟩]⟩,
        ⟨"B", "b", [], [⟨"ob1", "Shared Thing", []⟩]⟩]⟩).outputNodes.map
      (fun d => d.connCount)).sum = 3 ∧
    (generateScene ⟨"X", [⟨"A", "a", [], [⟨"oa1", "Shared Thing", []⟩,
          ⟨"oa2", "Only A", []⟩]⟩,
        ⟨"B", "b", [], [⟨"ob1", "Shared Thing", []⟩]⟩]⟩).outputNodes.map
      (fun d => d.isShared) = [true, false] := by
  refine ⟨?_, by decide, by decide⟩
  simp only [generateScene, List.mem_map] at hnd
  obtain ⟨e, he, rfl⟩ := hnd
  refine ⟨by simp [mkOutNode], ?_⟩
  simpa [mkOutNode] using connCount_eq_length he

/-- C2 counterexample to the claim as stated: a single Outcome `"A"` whose
outputs list the statement `"x"` twice produces one output node with
`sourceOutcomeIds = ["A", "A"]`, marked `isShared`, with 2 connectors
targeting it — although the snapshot has exactly one Outcome, so the number
of (distinct) contributing Outcomes is 1, not 2. -/
theorem c2_counterexample :
    (generateScene ⟨"X", [⟨"A", "a", [], [⟨"o1", "x", []⟩, ⟨"o2", "x", []⟩]⟩]⟩).outputNodes
        = [⟨["A", "A"], true, 2⟩] ∧
      (⟨"X", [⟨"A", "a", [], [⟨"o1", "x", []⟩, ⟨"o2", "x", []⟩]⟩]⟩ :
          Snapshot).outcomes.length = 1 ∧
      (2 : ℕ) ≠ 1 := by
  refine ⟨by decide, by decide, by decide⟩

/-- C2 witness: the sharing theorem applied to the single output node of a
one-outcome snapshot. -/
theorem c2_witness :
    (((⟨["A"], false, 1⟩ : OutNode).isShared = true ↔
        1 < (⟨["A"], false, 1⟩ : OutNode).outcomeIds.length) ∧
      (⟨["A"], false, 1⟩ : OutNode).connCount
        = (⟨["A"], false, 1⟩ : OutNode).outcomeIds.length) ∧
    ((generateScene ⟨"X", [⟨"A", "a", [], [⟨"oa1", "Shared Thing", []⟩,
          ⟨"oa2", "Only A", []⟩]⟩,
        ⟨"B", "b", [], [⟨"ob1", "Shared Thing", []⟩]⟩]⟩).outputNodes.map
      (fun d => d.connCount)).sum = 3 ∧
    (generateScene ⟨"X", [⟨"A", "a", [], [⟨"oa1", "Shared Thing", []⟩,
          ⟨"oa2", "Only A", []⟩]⟩,
        ⟨"B", "b", [], [⟨"ob1", "Shared Thing", []⟩]⟩]⟩).outputNodes.map
      (fun d => d.isShared) = [true, false] :=
  c2_sharing ⟨"X", [⟨"A", "a", [], [⟨"o1", "t", []⟩]⟩]⟩ ⟨["A"], false, 1⟩ (by decide)

/-- C3: evaluation of the code at the failing input (impact statement "X",
no outcomes, canvas width 1200). The claim — and the spec — say the Impact
box is horizontally centered at the canvas midpoint; the code computes the
box's left edge as `impactX - config.itemWidth / 2` (line 95) but renders it
`config.itemWidth * 1.5` wide (line 97), so the box spans `[500, 800]` with
center `650`, not `600`. The width part of the claim (1.5 × 200 = 300)
holds, and the Impact-to-Outcome connectors do start at `impactX = 600`
(line 137) — the anchor the code itself treats as the box's bottom center —
which is why this is recorded as a code bug rather than spec error. -/
theorem c3_impact_center_bug :
    (generateScene ⟨"X", []⟩).impactRect = (500, 20, 300, 80) ∧
    (generateScene ⟨"X", []⟩).impactX = 600 ∧
    (500 : ℚ) + 300 / 2 = 650 ∧
    ¬ ((500 : ℚ) + 300 / 2 = 600) := by
  refine ⟨?_, ?_, by norm_num, by norm_num⟩ <;>
  · simp only [generateScene, totalWidth, maxItemsPerRow, configWidth, itemWidth,
      horizontalGap, configPadding, itemHeight, dedup, List.length_nil, List.foldl_nil]
    norm_num

theorem totalWidth_eq_max (n m : ℕ) :
    totalWidth n m = max 1200 ((maxItemsPerRow n m : ℚ) * 240 + 40) := by
  simp only [totalWidth, configWidth, itemWidth, horizontalGap, configPadding]
  norm_num

theorem width_lower_bound {n m k : ℕ} (hk : k = n ∨ k = m) (hk1 : 1 ≤ k) :
    (200 : ℚ) * ((k : ℚ) + 1) ≤ totalWidth n m := by
  have hTdef := totalWidth_eq_max n m
  have hM : k ≤ maxItemsPerRow n m := by
    rcases hk with rfl | rfl
    · exact le_trans (le_max_left k m) (le_max_left _ 1)
    · exact le_trans (le_max_right n k) (le_max_left _ 1)
  have hMq : (k : ℚ) ≤ (maxItemsPerRow n m : ℚ) := by exact_mod_cast hM
  rcases le_or_lt k 4 with h4 | h4
  · have hkq : (k : ℚ) ≤ 4 := by exact_mod_cast h4
    have hT : (1200 : ℚ) ≤ totalWidth n m := hTdef ▸ le_max_left _ _
    linarith
  · have h5 : 5 ≤ k := h4
    have hkq : (5 : ℚ) ≤ (k : ℚ) := by exact_mod_cast h5
    have hT : (maxItemsPerRow n m : ℚ) * 240 + 40 ≤ totalWidth n m :=
      hTdef ▸ le_max_right _ _
    linarith

/-- C4: the canvas width equals the spec's sizing formula
`max(W, max(n, m, 1) * (boxW + gap) + 2P)` with `W=1200`, `boxW=200`,
`gap=40`, `P=20`, and within every rank of `k ≥ 1` items placed at centers
`(totalWidth / (k + 1)) * i`, no two boxes' x-ranges `[x, x + boxW]`
overlap: for slots `i < j` the left edge of slot `j` is at least `boxW`
to the right of the left edge of slot `i`. -/
theorem c4_no_overlap (n m k i j : ℕ) (hk : k = n ∨ k = m) (hk1 : 1 ≤ k)
    (hij : i < j) (hjk : j < k) :
    totalWidth n m = specCanvasWidth n m ∧
    slotX (totalWidth n m) k i + itemWidth ≤ slotX (totalWidth n m) k j := by
  constructor
  · simp only [totalWidth, specCanvasWidth, maxItemsPerRow, configWidth, itemWidth,
      horizontalGap, configPadding]
    norm_num
  · have hpos : (0 : ℚ) < (k : ℚ) + 1 := by positivity
    have hkey : (200 : ℚ) * ((k : ℚ) + 1) ≤ totalWidth n m := width_lower_bound hk hk1
    have hs : (200 : ℚ) ≤ totalWidth n m / ((k : ℚ) + 1) := by
      rw [le_div_iff₀ hpos]
      linarith
    have hs0 : (0 : ℚ) ≤ totalWidth n m / ((k : ℚ) + 1) := by linarith
    have hj1 : (1 : ℚ) ≤ (j : ℚ) - (i : ℚ) := by
      have : (i : ℚ) + 1 ≤ (j : ℚ) := by exact_mod_cast hij
      linarith
    simp only [slotX, rowSpacing, itemWidth]
    nlinarith [mul_le_mul_of_nonneg_left hj1 hs0]

/-- C4 witness: the layout theorem at `n = 2`, `m = 1`, rank `k = 2`,
slots `0 < 1`. -/
theorem c4_witness :
    totalWidth 2 1 = specCanvasWidth 2 1 ∧
      slotX (totalWidth 2 1) 2 0 + itemWidth ≤ slotX (totalWidth 2 1) 2 1 :=
  c4_no_overlap 2 1 2 0 1 (Or.inl rfl) (by decide) (by decide) (by decide)

theorem joinWords_append_one (ws : List String) (w : String) :
    joinWords (ws ++ [w]) = addWord (joinWords ws) w := by
  simp [joinWords, List.foldl_append]

theorem joinWords_singleton (w : String) : joinWords [w] = w := by
  simp [joinWords, addWord]

theorem length_addWord_le {cl w : String} (h : (cl ++ w).length ≤ 30) :
    (addWord cl w).length ≤ 31 := by
  rw [String.length_append] at h
  by_cases hcl : cl = ""
  · subst hcl
    have he : addWord "" w = w := by simp [addWord]
    rw [he]
    simp only [String.length_empty] at h
    omega
  · unfold addWord
    rw [if_neg hcl]
    have hsp : (" " : String).length = 1 := rfl
    simp only [String.length_append, hsp]
    omega

theorem wrap_fold_good (words : List String) :
    ∀ (ws : List String) (st : List String × String),
      (∀ w ∈ ws, w ∈ words) →
      (∀ l ∈ st.1, LineGood words l) →
      (st.2 = "" ∨ LineGood words st.2) →
      (∀ l ∈ (ws.foldl wrapStep st).1, LineGood words l) ∧
      ((ws.foldl wrapStep st).2 = "" ∨ LineGood words (ws.foldl wrapStep st).2) := by
  intro ws
  induction ws with
  | nil => intro st _ h2 h3; exact ⟨h2, h3⟩
  | cons w ws ih =>
    intro st hw h2 h3
    have hwmem : w ∈ words := hw w (List.mem_cons_self w ws)
    rw [List.foldl_cons]
    apply ih
    · intro x hx; exact hw x (List.mem_cons_of_mem w hx)
    · -- the pushed lines remain well-formed
      intro l hl
      unfold wrapStep at hl
      split at hl
      · exact h2 l hl
      · split at hl
        · exact h2 l hl
        · rcases List.mem_append.mp hl with hm | hm
          · exact h2 l hm
          · rw [List.mem_singleton.mp hm]
            rcases h3 with he | hg
            · exact absurd he (by assumption)
            · exact hg
    · -- the new current line is empty or well-formed
      unfold wrapStep
      split
      · -- within width: currentLine gets the word appended
        right
        have hle : (st.2 ++ w).length ≤ 30 := by assumption
        constructor
        · rcases h3 with he | hg
          · refine ⟨[w], by simp, by simpa using hwmem, ?_⟩
            rw [joinWords_singleton]
            rw [he]
            simp [addWord]
          · obtain ⟨⟨ws0, hne, hmem, hjoin⟩, _⟩ := hg
            refine ⟨ws0 ++ [w], by simp, ?_, ?_⟩
            · intro x hx
              rcases List.mem_append.mp hx with hx | hx
              · exact hmem x hx
              · rw [List.mem_singleton.mp hx]; exact hwmem
            · rw [joinWords_append_one, ← hjoin]
        · exact Or.inr (length_addWord_le hle)
      · -- over width: the word starts a fresh line
        right
        exact ⟨⟨[w], by simp, by simpa using hwmem, (joinWords_singleton w).symm⟩,
          Or.inl hwmem⟩

theorem wrapLines_good (text : String) :
    ∀ l ∈ wrapLines text, LineGood (splitWords text) l := by
  intro l hl
  unfold wrapLines at hl
  have h := wrap_fold_good (splitWords text) (splitWords text) ([], "")
      (fun w hw => hw) (by simp) (Or.inl rfl)
  by_cases h2 : ((splitWords text).foldl wrapStep ([], "")).2 = ""
  · rw [if_pos h2] at hl
    exact h.1 l hl
  · rw [if_neg h2] at hl
    rcases List.mem_append.mp hl with hm | hm
    · exact h.1 l hm
    · rw [List.mem_singleton.mp hm]
      rcases h.2 with he | hg
      · exact absurd he h2
      · exact hg

/-- C5 (amended): the Text Fitter preserves the full untruncated text for
the accessible companion, emits at most 2 display lines, and never splits a
word of its input across lines — every display line is the wrap-loop join
of whole space-separated words of the (truncated) text. AMENDED length
bound: a display line exceeds `maxCharsPerLine = 30` only when it is a
single word longer than 30 characters, or when it is a multi-word line of
length exactly 31 — the greedy test `(currentLine + word).length <= 30`
(line 253) ignores the single joining space it is about to insert, so a
multi-word line can reach 31 characters. -/
theorem c5_text_fitter (text : String) :
    (fit text).fullText = text ∧
    (fit text).displayLines.length ≤ 2 ∧
    ∀ line ∈ (fit text).displayLines,
      (∃ ws, ws ≠ [] ∧ (∀ w ∈ ws, w ∈ wordsOf text) ∧ line = joinWords ws) ∧
      (line ∈ wordsOf text ∨ line.length ≤ 31) := by
  refine ⟨rfl, ?_, ?_⟩
  · show ((wrapLines (truncatedText text)).take 2).length ≤ 2
    rw [List.length_take]
    omega
  · intro line hline
    have hmem : line ∈ wrapLines (truncatedText text) :=
      List.take_subset 2 _ hline
    exact wrapLines_good (truncatedText text) line hmem

/-- C5 witness: the fitter theorem at the input "hello world", whose single
display line is "hello world" itself. -/
theorem c5_witness :
    (fit "hello world").fullText = "hello world" ∧
    ((∃ ws, ws ≠ [] ∧ (∀ w ∈ ws, w ∈ wordsOf "hello world") ∧
        "hello world" = joinWords ws) ∧
      ("hello world" ∈ wordsOf "hello world" ∨
        ("hello world" : String).length ≤ 31)) :=
  ⟨(c5_text_fitter "hello world").1,
   (c5_text_fitter "hello world").2.2 "hello world" (by decide)⟩

/-- C5 counterexample to the claim as stated: the 31-character input
"aaaaaaaaaa bbbbbbbbbbbbbbbbbbbb" (10-char word, space, 20-char word)
passes the greedy test `(10 + 20) <= 30` and is emitted as a single display
line of length 31 > 30 that is not a single overlong word: it consists of
two words, each of length at most 30. -/
theorem c5_counterexample :
    (fit "aaaaaaaaaa bbbbbbbbbbbbbbbbbbbb").displayLines
        = ["aaaaaaaaaa bbbbbbbbbbbbbbbbbbbb"] ∧
      ("aaaaaaaaaa bbbbbbbbbbbbbbbbbbbb" : String).length = 31 ∧
      ¬ "aaaaaaaaaa bbbbbbbbbbbbbbbbbbbb" ∈ wordsOf "aaaaaaaaaa bbbbbbbbbbbbbbbbbbbb" ∧
      ∀ w ∈ wordsOf "aaaaaaaaaa bbbbbbbbbbbbbbbbbbbb", w.length ≤ 30 := by
  refine ⟨by decide, by decide, by decide, by decide⟩

/-- C6 (amended): the pre-wrap truncation step is the identity whenever
`text.length <= 60` (no suffix appended). AMENDED overlong case: when
`text.length > 60` the code truncates to the first 57 characters (not 60)
and appends the three ASCII periods `"..."` (not the single ellipsis
character `"…"`), producing a 60-character result
(`text.substring(0, 57) + '...'`, line 233). -/
theorem c6_truncation (text : String) :
    (text.length ≤ 60 → truncatedText text = text) ∧
    (60 < text.length →
      truncatedText text = jsSubstring text 57 ++ "..." ∧
      (truncatedText text).length = 60) := by
  constructor
  · intro h
    unfold truncatedText
    rw [if_neg (by omega)]
  · intro h
    unfold truncatedText
    rw [if_pos (by omega)]
    refine ⟨rfl, ?_⟩
    rw [String.length_append]
    have h57 : (jsSubstring text 57).length = 57 := by
      show (String.mk (text.data.take 57)).length = 57
      rw [String.length_mk, List.length_take]
      have hd : text.data.length = text.length := rfl
      omega
    have h3 : ("..." : String).length = 3 := rfl
    omega

/-- C6 witness: the truncation theorem at a short input ("hi") and at a
61-character input. -/
theorem c6_witness :
    truncatedText "hi" = "hi" ∧
    (truncatedText (String.mk (List.replicate 61 'a'))
        = jsSubstring (String.mk (List.replicate 61 'a')) 57 ++ "..." ∧
      (truncatedText (String.mk (List.replicate 61 'a'))).length = 60) :=
  ⟨(c6_truncation "hi").1 (by decide),
   (c6_truncation (String.mk (List.replicate 61 'a'))).2 (by decide)⟩

/-- C6 counterexample to the claim as stated: on 61 copies of 'a' the code
produces 57 copies of 'a' followed by "...", which differs from the
claimed "truncate to maxChars = 60 characters and append the ellipsis
character". -/
theorem c6_counterexample :
    truncatedText (String.mk (List.replicate 61 'a'))
        = String.mk (List.replicate 57 'a') ++ "..." ∧
      truncatedText (String.mk (List.replicate 61 'a'))
        ≠ String.mk (List.replicate 60 'a') ++ "…" := by
  refine ⟨by decide, by decide⟩

/-- C10: an indicator-count badge is emitted iff the node's indicatorCount
is at least 1 (`if (indicatorCount > 0)`, line 277), and its accessible
label is number-sensitive: "1 indicator" for exactly 1 and "N indicators"
for every N > 1 (line 301); a node with zero indicators carries no badge. -/
theorem c10_indicator_badge (n : ℕ) :
    ((indicatorBadgeLabel n).isSome ↔ 1 ≤ n) ∧
    indicatorBadgeLabel 1 = some "1 indicator" ∧
    (1 < n → indicatorBadgeLabel n = some (toString n ++ " indicators")) := by
  refine ⟨?_, by decide, ?_⟩
  · unfold indicatorBadgeLabel
    split
    · simp; omega
    · simp; omega
  · intro h
    unfold indicatorBadgeLabel
    rw [if_pos (by omega), if_pos h, String.append_assoc]
    rfl

/-- C10 witness: the badge theorem at count 3. -/
theorem c10_witness :
    ((indicatorBadgeLabel 3).isSome ↔ 1 ≤ 3) ∧
    indicatorBadgeLabel 1 = some "1 indicator" ∧
    indicatorBadgeLabel 3 = some (toString 3 ++ " indicators") :=
  ⟨(c10_indicator_badge 3).1, (c10_indicator_badge 3).2.1,
   (c10_indicator_badge 3).2.2 (by decide)⟩

theorem insertBeforeImpact_eq (p : List Elem) (s : List Elem) (e : Elem)
    (hp : ∀ x ∈ p, x.isImpact = false) :
    insertBeforeImpact (p ++ impactE :: s) e = p ++ e :: impactE :: s := by
  induction p with
  | nil => simp [insertBeforeImpact, impactE]
  | cons c p ih =>
    simp only [List.cons_append, insertBeforeImpact]
    rw [if_neg (by simp [hp c (List.mem_cons_self c p)])]
    exact congrArg (List.cons c) (ih fun x hx => hp x (List.mem_cons_of_mem c hx))

theorem childrenL2_eq (oids : List String) :
    childrenL2 oids = [metaE, metaE, metaE] ++ List.replicate oids.length connE
      ++ impactE :: List.replicate oids.length nodeE := by
  suffices h : ∀ (l : List String) (cs ns : List Elem),
      (∀ x ∈ cs, x.isImpact = false) →
      l.foldl (fun acc _ => insertBeforeImpact (acc ++ [nodeE]) connE)
          ([metaE, metaE, metaE] ++ cs ++ impactE :: ns)
        = [metaE, metaE, metaE] ++ (cs ++ List.replicate l.length connE)
          ++ impactE :: (ns ++ List.replicate l.length nodeE) by
    have h2 := h oids [] [] (by simp)
    simpa [childrenL2] using h2
  intro l
  induction l with
  | nil => intro cs ns _; simp
  | cons a l ih =>
    intro cs ns hcs
    rw [List.foldl_cons]
    have hsplit : ([metaE, metaE, metaE] ++ cs ++ impactE :: ns) ++ [nodeE]
        = ([metaE, metaE, metaE] ++ cs) ++ impactE :: (ns ++ [nodeE]) := by
      simp
    have hstep : insertBeforeImpact
          (([metaE, metaE, metaE] ++ cs ++ impactE :: ns) ++ [nodeE]) connE
        = [metaE, metaE, metaE] ++ (cs ++ [connE]) ++ impactE :: (ns ++ [nodeE]) := by
      rw [hsplit, insertBeforeImpact_eq]
      · simp
      · intro x hx
        rcases List.mem_append.mp hx with hm | hm
        · have hx2 : x = metaE := by simpa using hm
          subst hx2; rfl
        · exact hcs x hm
    rw [hstep, ih (cs ++ [connE]) (ns ++ [nodeE]) (by
      intro x hx
      rcases List.mem_append.mp hx with hm | hm
      · exact hcs x hm
      · rw [List.mem_singleton.mp hm]; rfl)]
    simp [List.replicate_succ, List.append_assoc]

theorem insertConns_eq (oids : List String) (ids : List String) :
    ∀ (x : Elem) (t : List Elem),
      ids.foldl (fun a oid => if oids.contains oid then insertAt1 a connE else a) (x :: t)
        = x :: (List.replicate (ids.filter fun oid => oids.contains oid).length connE ++ t) := by
  induction ids with
  | nil => intro x t; simp
  | cons i ids ih =>
    intro x t
    rw [List.foldl_cons, List.filter_cons]
    by_cases h : oids.contains i = true
    · rw [if_pos h, if_pos h]
      rw [show insertAt1 (x :: t) connE = x :: connE :: t from rfl]
      rw [ih x (connE :: t)]
      congr 1
      simp [List.length_cons, List.replicate_succ', List.append_assoc]
    · rw [if_neg h, if_neg h]
      exact ih x t

theorem childrenOf_eq (oids : List String) (entryIds : List (List String)) :
    childrenOf oids entryIds
      = metaE :: (List.replicate
            ((entryIds.map fun ids =>
              (ids.filter fun oid => oids.contains oid).length).sum) connE
          ++ ([metaE, metaE] ++ List.replicate oids.length connE
              ++ impactE :: List.replicate oids.length nodeE)
          ++ List.replicate entryIds.length nodeE) := by
  suffices h : ∀ (l : List (List String)) (r : List Elem),
      l.foldl (fun acc ids => ids.foldl
            (fun a oid => if oids.contains oid then insertAt1 a connE else a)
            (acc ++ [nodeE])) (metaE :: r)
        = metaE :: (List.replicate ((l.map fun ids =>
              (ids.filter fun oid => oids.contains oid).length).sum) connE
            ++ r ++ List.replicate l.length nodeE) by
    have h2 := h entryIds ([metaE, metaE] ++ List.replicate oids.length connE
        ++ impactE :: List.replicate oids.length nodeE)
    rw [childrenOf, childrenL2_eq]
    rw [show [metaE, metaE, metaE] ++ List.replicate oids.length connE
        ++ impactE :: List.replicate oids.length nodeE
        = metaE :: ([metaE, metaE] ++ List.replicate oids.length connE
            ++ impactE :: List.replicate oids.length nodeE) by simp]
    rw [h2]
  intro l
  induction l with
  | nil => intro r; simp
  | cons ids l ih =>
    intro r
    rw [List.foldl_cons]
    rw [show (metaE :: r) ++ [nodeE] = metaE :: (r ++ [nodeE]) from rfl]
    rw [insertConns_eq oids ids metaE (r ++ [nodeE])]
    rw [ih (List.replicate (ids.filter fun oid => oids.contains oid).length connE
        ++ (r ++ [nodeE]))]
    congr 1
    simp only [List.map_cons, List.sum_cons, List.length_cons, List.append_assoc,
      List.singleton_append]
    rw [← List.append_assoc
      (List.replicate ((l.map fun ids =>
        (ids.filter fun oid => oids.contains oid).length).sum) connE)
      (List.replicate ((ids.filter fun oid => oids.contains oid).length) connE)]
    rw [← List.replicate_add]
    rw [Nat.add_comm ((l.map fun ids =>
        (ids.filter fun oid => oids.contains oid).length).sum)
      ((ids.filter fun oid => oids.contains oid).length)]
    rw [← List.replicate_succ]

theorem children_split (snap : Snapshot) :
    ∃ pre post : List Elem,
      (generateScene snap).children = pre ++ post ∧
      (∀ x ∈ pre, x.kind ≠ ElemKind.nodeElem) ∧
      (∀ x ∈ post, x.kind ≠ ElemKind.connectorElem) := by
  set oids := snap.outcomes.map (·.id) with hoids
  set entryIds := (dedup snap.outcomes).map (·.outcomeIds) with hentry
  refine ⟨metaE :: (List.replicate
        ((entryIds.map fun ids =>
          (ids.filter fun oid => oids.contains oid).length).sum) connE
      ++ ([metaE, metaE] ++ List.replicate oids.length connE)),
    impactE :: (List.replicate oids.length nodeE
      ++ List.replicate entryIds.length nodeE), ?_, ?_, ?_⟩
  · show childrenOf oids entryIds = _
    rw [childrenOf_eq]
    simp [List.append_assoc]
  · intro x hx
    rcases List.mem_cons.mp hx with h | h
    · subst h; simp [metaE]
    · rcases List.mem_append.mp h with h | h
      · rw [(List.mem_replicate.mp h).2]; simp [connE]
      · rcases List.mem_append.mp h with h | h
        · have : x = metaE := by simpa using h
          subst this; simp [metaE]
        · rw [(List.mem_replicate.mp h).2]; simp [connE]
  · intro x hx
    rcases List.mem_cons.mp hx with h | h
    · subst h; simp [impactE]
    · rcases List.mem_append.mp h with h | h
      · rw [(List.mem_replicate.mp h).2]; simp [nodeE]
      · rw [(List.mem_replicate.mp h).2]; simp [nodeE]

/-- C9: in every assembled scene, every connector element precedes every
node element in the SVG child order — all connector strokes are drawn
beneath all node boxes — regardless of the interleaved order in which the
code computes nodes (`appendChild`) and connectors (`insertBefore`, lines
143 and 194). -/
theorem c9_zorder (snap : Snapshot) (i j : ℕ)
    (hi : i < (generateScene snap).children.length)
    (hj : j < (generateScene snap).children.length)
    (hci : ((generateScene snap).children[i]).kind = ElemKind.connectorElem)
    (hnj : ((generateScene snap).children[j]).kind = ElemKind.nodeElem) :
    i < j := by
  obtain ⟨pre, post, heq, hpre, hpost⟩ := children_split snap
  have hlen : (generateScene snap).children.length = pre.length + post.length := by
    rw [heq, List.length_append]
  have hjp : pre.length ≤ j := by
    by_contra hc
    push_neg at hc
    have hget : (generateScene snap).children[j] = pre[j] := by
      rw [List.getElem_of_eq heq]
      exact List.getElem_append_left hc
    exact hpre pre[j] (List.getElem_mem hc) (hget ▸ hnj)
  have hip : i < pre.length := by
    by_contra hc
    push_neg at hc
    have hlt : i - pre.length < post.length := by omega
    have hget : (generateScene snap).children[i] = post[i - pre.length] := by
      rw [List.getElem_of_eq heq]
      exact List.getElem_append_right hc
    exact hpost post[i - pre.length] (List.getElem_mem hlt) (hget ▸ hci)
  omega

/-- C9 witness: the z-order theorem on the one-outcome, one-output
snapshot, whose child list is `[title, connector, desc, defs, connector,
impact, outcome, output]`: the connector at index 1 precedes the node at
index 5. -/
theorem c9_witness : (1 : ℕ) < 5 :=
  c9_zorder ⟨"X", [⟨"A", "s", [], [⟨"o1", "t", []⟩]⟩]⟩ 1 5
    (by decide) (by decide) (by decide) (by decide)

/-! ## Error-handling lemmas for the throwing pipeline -/

theorem bind_ok_eq {α β : Type} (a : α) (f : α → Except Unit β) :
    (Except.ok a >>= f) = f a := rfl

theorem bind_error_eq {α β : Type} (f : α → Except Unit β) :
    ((Except.error () : Except Unit α) >>= f) = Except.error () := rfl

theorem bind_error_any {α β : Type} (e : Unit) (f : α → Except Unit β) :
    ((Except.error e : Except Unit α) >>= f) = Except.error e := rfl

theorem foldlM_ok {α β : Type} (f : β → α → Except Unit β) (l : List α) :
    ∀ init : β, (∀ b : β, ∀ a ∈ l, ∃ b2, f b a = Except.ok b2) →
    ∃ r, l.foldlM f init = Except.ok r := by
  induction l with
  | nil => intro init _; exact ⟨init, rfl⟩
  | cons a l ih =>
    intro init h
    obtain ⟨b2, hb2⟩ := h init a (List.mem_cons_self a l)
    rw [List.foldlM_cons, hb2, bind_ok_eq]
    exact ih b2 fun b a2 ha => h b a2 (List.mem_cons_of_mem a ha)

theorem addOccE_ok {m : List RUEntry} {oid : String} {out : RawOutput}
    (h : out.statement.isSome) : ∃ m2, addOccE m oid out = Except.ok m2 := by
  cases out with
  | mk oid2 stmt ind =>
    cases stmt with
    | none => simp at h
    | some s => exact ⟨_, rfl⟩

theorem dedupE_ok {os : List RawOutcome}
    (h : ∀ o ∈ os, ∃ outs, o.outputs = some outs ∧ ∀ out ∈ outs, out.statement.isSome) :
    ∃ entries, dedupE os = Except.ok entries := by
  unfold dedupE
  refine foldlM_ok _ os [] fun m o ho => ?_
  obtain ⟨outs, houts, hstmt⟩ := h o ho
  rw [houts]
  exact foldlM_ok _ outs m fun m2 out hout => addOccE_ok (hstmt out hout)

theorem addOccE_preserve (P : RawOutput → Prop) {m m2 : List RUEntry} {oid : String}
    {out : RawOutput} (hm : ∀ e ∈ m, P e.output) (hout : P out)
    (hrun : addOccE m oid out = Except.ok m2) : ∀ e ∈ m2, P e.output := by
  unfold addOccE at hrun
  cases hs : out.statement with
  | none => rw [hs] at hrun; exact absurd hrun (by simp)
  | some stmt =>
    rw [hs] at hrun
    simp only [Except.ok.injEq] at hrun
    subst hrun
    split
    · intro e he
      simp only [List.mem_map] at he
      obtain ⟨e0, he0, rfl⟩ := he
      split
      · exact hm e0 he0
      · exact hm e0 he0
    · intro e he
      rcases List.mem_append.mp he with h1 | h1
      · exact hm e h1
      · rw [List.mem_singleton.mp h1]
        exact hout

theorem foldlM_addOccE_preserve (P : RawOutput → Prop) :
    ∀ (outs : List RawOutput) (oid : String) (m m2 : List RUEntry),
      (∀ out ∈ outs, P out) → (∀ e ∈ m, P e.output) →
      outs.foldlM (fun m2 out => addOccE m2 oid out) m = Except.ok m2 →
      ∀ e ∈ m2, P e.output := by
  intro outs
  induction outs with
  | nil =>
    intro oid m m2 _ hm hrun
    rw [List.foldlM_nil] at hrun
    simp only [pure, Except.pure, Except.ok.injEq] at hrun
    subst hrun
    exact hm
  | cons out outs ih =>
    intro oid m m2 houts hm hrun
    rw [List.foldlM_cons] at hrun
    cases hstep : addOccE m oid out with
    | error e =>
      rw [hstep] at hrun
      exact absurd hrun (by simp [bind_error_any])
    | ok m1 =>
      rw [hstep, bind_ok_eq] at hrun
      exact ih oid m1 m2 (fun o2 ho2 => houts o2 (List.mem_cons_of_mem out ho2))
        (addOccE_preserve P hm (houts out (List.mem_cons_self out outs)) hstep) hrun

theorem dedupE_preserve (P : RawOutput → Prop) :
    ∀ (os : List RawOutcome) (m entries : List RUEntry),
      (∀ o ∈ os, ∀ outs, o.outputs = some outs → ∀ out ∈ outs, P out) →
      (∀ e ∈ m, P e.output) →
      os.foldlM (fun m o =>
          match o.outputs with
          | none => Except.error ()
          | some outs => outs.foldlM (fun m2 out => addOccE m2 o.id out) m) m
        = Except.ok entries →
      ∀ e ∈ entries, P e.output := by
  intro os
  induction os with
  | nil =>
    intro m entries _ hm hrun
    rw [List.foldlM_nil] at hrun
    simp only [pure, Except.pure, Except.ok.injEq] at hrun
    subst hrun
    exact hm
  | cons o os ih =>
    intro m entries hos hm hrun
    rw [List.foldlM_cons] at hrun
    cases houts : o.outputs with
    | none =>
      rw [houts] at hrun
      exact absurd hrun (by simp [bind_error_any])
    | some outs =>
      rw [houts] at hrun
      dsimp only at hrun
      cases hstep : outs.foldlM (fun m2 out => addOccE m2 o.id out) m with
      | error e =>
        rw [hstep] at hrun
        exact absurd hrun (by simp [bind_error_any])
      | ok m1 =>
        rw [hstep, bind_ok_eq] at hrun
        refine ih m1 entries (fun o2 ho2 => hos o2 (List.mem_cons_of_mem o ho2)) ?_ hrun
        exact foldlM_addOccE_preserve P outs o.id m m1
          (hos o (List.mem_cons_self o os) outs houts) hm hstep

theorem layer2E_ok {os : List RawOutcome}
    (h : ∀ o ∈ os, o.indicators.isSome ∧ o.statement.isSome) :
    layer2E os = Except.ok () := by
  unfold layer2E
  obtain ⟨r, hr⟩ := foldlM_ok
    (fun (_ : Unit) (o : RawOutcome) =>
      match o.indicators with
      | none => Except.error ()
      | some _ =>
        match o.statement with
        | none => Except.error ()
        | some _ => Except.ok ()) os ()
    (fun b o ho => by
      obtain ⟨hind, hstmt⟩ := h o ho
      cases o with
      | mk oid ostmt oind oouts =>
        cases oind with
        | none => simp at hind
        | some ind =>
          cases ostmt with
          | none => simp at hstmt
          | some s => exact ⟨(), rfl⟩)
  cases r
  exact hr

theorem layer3E_ok {entries : List RUEntry}
    (h : ∀ e ∈ entries, e.output.indicators.isSome ∧ e.output.statement.isSome) :
    layer3E entries = Except.ok () := by
  unfold layer3E
  obtain ⟨r, hr⟩ := foldlM_ok
    (fun (_ : Unit) (e : RUEntry) =>
      match e.output.indicators with
      | none => Except.error ()
      | some _ =>
        match e.output.statement with
        | none => Except.error ()
        | some _ => Except.ok ()) entries ()
    (fun b e he => by
      dsimp only
      obtain ⟨hind, hstmt⟩ := h e he
      cases hi : e.output.indicators with
      | none => rw [hi] at hind; simp at hind
      | some ind =>
        cases hs : e.output.statement with
        | none => rw [hs] at hstmt; simp at hstmt
        | some s => exact ⟨(), rfl⟩)
  cases r
  exact hr

theorem generate_ok (snap : Snapshot) :
    ∃ s, generateSVGVisualization (rawOfSnapshot snap) = Except.ok s := by
  have hded : ∃ entries, dedupE (snap.outcomes.map rawOfOutcome) = Except.ok entries := by
    apply dedupE_ok
    intro o ho
    simp only [List.mem_map] at ho
    obtain ⟨o0, _, rfl⟩ := ho
    refine ⟨o0.outputs.map rawOfOutput, rfl, ?_⟩
    intro out hout
    simp only [List.mem_map] at hout
    obtain ⟨out0, _, rfl⟩ := hout
    rfl
  obtain ⟨entries, hdedr⟩ := hded
  have hpres : ∀ e ∈ entries, e.output.indicators.isSome ∧ e.output.statement.isSome := by
    refine dedupE_preserve (fun out => out.indicators.isSome ∧ out.statement.isSome)
      (snap.outcomes.map rawOfOutcome) [] entries ?_ (by simp) hdedr
    intro o ho outs houts out hout
    simp only [List.mem_map] at ho
    obtain ⟨o0, _, rfl⟩ := ho
    rw [show (rawOfOutcome o0).outputs = some (o0.outputs.map rawOfOutput) from rfl] at houts
    have houts2 : o0.outputs.map rawOfOutput = outs := by injection houts
    subst houts2
    simp only [List.mem_map] at hout
    obtain ⟨out0, _, rfl⟩ := hout
    exact ⟨rfl, rfl⟩
  refine ⟨rawScene (snap.outcomes.map rawOfOutcome) entries, ?_⟩
  unfold generateSVGVisualization rawOfSnapshot
  dsimp only
  rw [hdedr]
  dsimp only
  rw [layer2E_ok (fun o ho => ?_), layer3E_ok hpres]
  simp only [List.mem_map] at ho
  obtain ⟨o0, _, rfl⟩ := ho
  exact ⟨rfl, rfl⟩

/-- C7 (amended): the core performs no up-front validation and never
recovers locally — malformed snapshots surface as exceptions thrown at the
point of first bad access and propagate to the caller. A snapshot whose
`outcomes` is not an array raises as soon as the outcomes are first
traversed; a snapshot missing `impact.statement` also raises — but only
when the Impact node is built, after deduplication (and sizing) have
already run, not before any deduplication work; and a snapshot with
`impact.statement` present and an `outcomes` array can still raise when an
outcome or output lacks its own required fields. Snapshots with every field
present always produce a Scene without raising. -/
theorem c7_error_propagation :
    (∀ d : RawData, d.outcomes = none → generateSVGVisualization d = Except.error ()) ∧
    (∀ d : RawData, d.impactStatement = none →
      generateSVGVisualization d = Except.error ()) ∧
    (∀ snap : Snapshot, ∃ s, generateSVGVisualization (rawOfSnapshot snap) = Except.ok s) := by
  refine ⟨?_, ?_, generate_ok⟩
  · intro d hd
    unfold generateSVGVisualization
    rw [hd]
  · intro d hd
    cases ho : d.outcomes with
    | none =>
      unfold generateSVGVisualization
      rw [ho]
    | some os =>
      unfold generateSVGVisualization
      rw [ho]
      dsimp only
      cases hded : dedupE os with
      | error e =>
        cases e
        rfl
      | ok entries =>
        dsimp only
        rw [hd]

/-- C7 counterexample to the claim as stated. First conjunct: a snapshot
with `impact.statement` present and `outcomes` a proper array — so not a
MalformedSnapshot in the claim's sense — still raises, because its only
outcome has no `outputs` array; this refutes "for every other snapshot,
however degenerate, the pipeline returns a valid Scene and never raises".
Second and third conjuncts: on a snapshot missing only `impact.statement`,
the deduplication pass completes successfully (it returns the unique-output
entry), yet the pipeline raises afterwards; this refutes "fails fast before
performing any ... deduplication work". -/
theorem c7_counterexample :
    generateSVGVisualization ⟨some "X", some [⟨"A", some "s", some [], none⟩]⟩
        = Except.error () ∧
      dedupE [⟨"A", some "s", some [], some [⟨"o1", some "x", some []⟩]⟩]
        = Except.ok [⟨"x", ⟨"o1", some "x", some []⟩, ["A"]⟩] ∧
      generateSVGVisualization
          ⟨none, some [⟨"A", some "s", some [], some [⟨"o1", some "x", some []⟩]⟩]⟩
        = Except.error () := by
  refine ⟨rfl, rfl, rfl⟩

/-- C7 witness: the error-propagation theorem applied at a snapshot with a
non-array `outcomes`, at a snapshot missing `impact.statement`, and at the
empty well-formed snapshot. -/
theorem c7_witness :
    generateSVGVisualization ⟨some "X", none⟩ = Except.error () ∧
    generateSVGVisualization ⟨none, some []⟩ = Except.error () ∧
    ∃ s, generateSVGVisualization (rawOfSnapshot ⟨"X", []⟩) = Except.ok s :=
  ⟨c7_error_propagation.1 ⟨some "X", none⟩ rfl,
   c7_error_propagation.2.1 ⟨none, some []⟩ rfl,
   c7_error_propagation.2.2 ⟨"X", []⟩⟩

/-- C8: a snapshot with zero Outcomes produces a Scene whose child list
contains exactly one node element (the Impact node) and zero connector
elements, without raising; the sizing formulas stay well-defined through
`maxItemsPerRow = max(n, m, 1) = 1`, giving canvas width 1200, and no
placeholder nodes are fabricated for the empty ranks. -/
theorem c8_empty_snapshot (stmt : String) :
    generateSVGVisualization ⟨some stmt, some []⟩
        = Except.ok (generateScene ⟨stmt, []⟩) ∧
    ((generateScene ⟨stmt, []⟩).children.filter fun e =>
        e.kind = ElemKind.nodeElem).length = 1 ∧
    ((generateScene ⟨stmt, []⟩).children.filter fun e =>
        e.kind = ElemKind.connectorElem).length = 0 ∧
    maxItemsPerRow 0 0 = 1 ∧
    (generateScene ⟨stmt, []⟩).totalWidth = 1200 := by
  have hch : (generateScene ⟨stmt, []⟩).children = [metaE, metaE, metaE, impactE] := rfl
  refine ⟨rfl, by rw [hch]; decide, by rw [hch]; decide, by decide, ?_⟩
  simp only [generateScene, totalWidth, maxItemsPerRow, configWidth, itemWidth,
    horizontalGap, configPadding, dedup, List.length_nil, List.foldl_nil]
  norm_num
